import Mathlib

/-!
Verification of the jmeter-runner test-run orchestration engine
(`src/controller.ts`, `src/interfaces.ts`, `src/server.ts`).

The embedding mirrors the TypeScript source:
* `TestRunStatus`, `TestRun`, `Test` come from `interfaces.ts` / `controller.ts`.
* The registry `_testsById` is a JS object keyed by run id; JS objects keep
  first-insertion order under re-assignment, so it is modelled as an
  association list with an in-place `upsertTest`.
* `timestamp` is stored by the code as an ISO-8601 string and always compared
  through `Date.parse`; since `new Date(ms).toISOString()` / `Date.parse` is an
  order- and equality-preserving correspondence, the model carries the parsed
  millisecond value as a `Nat`.
* `Array.prototype.sort` with the comparator
  `(f, s) => Date.parse(f.timestamp) - Date.parse(s.timestamp)` is a stable
  sort by timestamp (ES2019 requires stability); it is modelled by the stable
  `List.insertionSort`, which is extensionally the unique stable sort.
* The filesystem (temp root / permanent test root, per-run directories and
  files) is modelled explicitly; `cp.exec("cp -r … && rm -rf …")` in
  `_moveToResults` is modelled as a synchronous move that replaces the
  destination directory.
* The spawned jmeter child process is a pid plus the `run` value captured by
  the `close` callback at spawn time; a close event may later fire with an
  exit code and an optional signal chosen by the environment.
-/

namespace JR

/-- `TestRunStatus` from `interfaces.ts`. -/
inductive TestRunStatus where
  | running
  | done
  | cancelled
  | queued
deriving DecidableEq, Repr

/-- `TestRun` from `interfaces.ts`.  `timestamp` holds the `Date.parse` value
of the stored ISO-8601 string (see the header comment); `code` is the process
exit code; `duration` the measured seconds as a rational. -/
structure TestRun where
  id : String
  name : String
  category : Option String
  timestamp : Nat
  status : TestRunStatus
  code : Option Int
  duration : Option ℚ
deriving DecidableEq, Repr

/-- `Test` from `controller.ts`: a run plus the optional live child-process
handle (modelled by its pid). -/
structure Test where
  run : TestRun
  process : Option Nat
deriving DecidableEq, Repr

/-- `ControllerStatus` from `controller.ts`. -/
inductive ControllerStatus where
  | idle
  | running
  | paused
deriving DecidableEq, Repr

/-! ### The run registry (`_testsById`, a JS object keyed by run id) -/

/-- `this._testsById[test.run.id] = test`: replace the entry with the same id
in place (JS objects keep the first-insertion position), append otherwise. -/
def upsertTest : List Test → Test → List Test
  | [], t => [t]
  | x :: xs, t => if x.run.id = t.run.id then t :: xs else x :: upsertTest xs t

/-- `this._testsById[id]` (`_getTest`): lookup by run id. -/
def getTest : List Test → String → Option Test
  | [], _ => none
  | x :: xs, id => if x.run.id = id then some x else getTest xs id

/-- `delete this._testsById[id]`. -/
def removeTest (l : List Test) (id : String) : List Test :=
  l.filter fun x => ¬ x.run.id = id

/-- The comparator of `_testRunsByTimestamp`:
`(f, s) => Date.parse(f.timestamp) - Date.parse(s.timestamp)` orders runs by
parsed timestamp, ascending. -/
def byTimestamp (f s : TestRun) : Prop := f.timestamp ≤ s.timestamp

instance : DecidableRel byTimestamp := fun f s => Nat.decLe f.timestamp s.timestamp

instance : IsTotal TestRun byTimestamp := ⟨fun f s => Nat.le_total f.timestamp s.timestamp⟩

instance : IsTrans TestRun byTimestamp := ⟨fun _ _ _ h h2 => Nat.le_trans h h2⟩

/-- `_testRunsByTimestamp(filterByStatus)`: all runs with one of the given
statuses, stably sorted by parsed timestamp. -/
def testRunsByTimestamp (tests : List Test) (filterByStatus : List TestRunStatus) : List TestRun :=
  List.insertionSort byTimestamp
    ((tests.map Test.run).filter fun x => filterByStatus.contains x.status)

/-! ### Filesystem model -/

/-- A path `root/id/name` inside one of the two storage roots. -/
structure FPath where
  root : String
  id : String
  name : String
deriving DecidableEq, Repr

/-- A JS value as produced by `JSON.parse` or by the XML parser
(`fast-xml-parser` with `ignoreAttributes: false`, prefix `_`). -/
inductive JsVal where
  | undefined
  | str (s : String)
  | num (q : ℚ)
  | bool (b : Bool)
  | obj (fields : List (String × JsVal))
  | arr (elems : List JsVal)

/-- Contents of a file: plain text, or a JSON document (stored as the parsed
value; `JSON.stringify` / `JSON.parse` round-trip at the text level is the
JSON library's own guarantee). -/
inductive FileContent where
  | text (s : String)
  | json (j : JsVal)

/-- The filesystem: which run directories exist under the temp root and under
the permanent test root, and the files present. -/
structure FileSys where
  tempDirs : List String
  testDirs : List String
  files : List (FPath × FileContent)

def tempRoot : String := "temp"
def testRoot : String := "tests"

/-- `metadata.json` (the exported `metadataName` constant). -/
def metadataName : String := "metadata.json"
def testName : String := "test.jmx"
def outputName : String := "output.log"

/-- `fs.writeFileSync`: overwrite the first entry at this path, create the
file otherwise. -/
def fileWrite : List (FPath × FileContent) → FPath → FileContent → List (FPath × FileContent)
  | [], p, c => [(p, c)]
  | x :: xs, p, c => if x.1 = p then (p, c) :: xs else x :: fileWrite xs p c

/-- First file at the path, if any. -/
def getFile : List (FPath × FileContent) → FPath → Option FileContent
  | [], _ => none
  | x :: xs, p => if x.1 = p then some x.2 else getFile xs p

/-- `fs.readFileSync(path, utf8)` on a text file; `none` models the `ENOENT`
exception when the file is absent. -/
def readTextFile (fs : FileSys) (p : FPath) : Option String :=
  match getFile fs.files p with
  | some (.text s) => some s
  | _ => none

/-! ### JS dynamic-value operations used by the label extraction

`Except Unit` models a thrown `TypeError`, caught by the `catch` around the
duration computation in the `close` callback. -/

/-- Property access `v.k`: throws on `undefined`, yields the field of an
object (or `undefined` when absent), `undefined` on other values. -/
def jsGet : JsVal → String → Except Unit JsVal
  | .undefined, _ => .error ()
  | .obj fields, k => .ok (((fields.find? fun x => x.1 = k).map Prod.snd).getD .undefined)
  | _, _ => .ok .undefined

/-- Optional chaining `v?.k`. -/
def jsOptGet : JsVal → String → Except Unit JsVal
  | .undefined, _ => .ok .undefined
  | v, k => jsGet v k

/-- `arr.find(p)`: first element satisfying `p` (which may itself throw), or
`undefined`. -/
def jsFind : List JsVal → (JsVal → Except Unit Bool) → Except Unit JsVal
  | [], _ => .ok .undefined
  | x :: xs, p => do
    let b ← p x
    if b then .ok x else jsFind xs p

/-- Strict comparison `v === "lit"`. -/
def jsEqStr (v : JsVal) (lit : String) : Bool :=
  match v with
  | .str s => s = lit
  | _ => false

/-- `v?.toString()`: `undefined` stays absent; the number case approximates
JS `Number.prototype.toString` (no claim depends on it). -/
def jsToStringOpt : JsVal → Option String
  | .undefined => none
  | .str s => some s
  | .num q => some (if q.den = 1 then toString q.num else toString q)
  | .bool b => some (cond b "true" "false")
  | .obj _ => some "[object Object]"
  | .arr _ => some ""

/-- Coercion of a value to a property key (`a[x.key] = …`). -/
def jsPropKey : JsVal → String
  | .undefined => "undefined"
  | .str s => s
  | .num q => if q.den = 1 then toString q.num else toString q
  | .bool b => cond b "true" "false"
  | .obj _ => "[object Object]"
  | .arr _ => ""

/-- JS object assignment `a[k] = v`: replace the key in place or append. -/
def objUpsert : List (String × Option String) → String → Option String →
    List (String × Option String)
  | [], k, v => [(k, v)]
  | x :: xs, k, v => if x.1 = k then (k, v) :: xs else x :: objUpsert xs k v

/-- The `value` computed for one `elementProp` entry `x`
(`controller.ts` lines 218-220):
`Array.isArray(x.stringProp) ? x.stringProp.find(s => s._name === 'Argument.value')?._text
: (x.stringProp._name === 'Argument.value' ? x.stringProp._text : undefined)`. -/
def labelValue (x : JsVal) : Except Unit JsVal := do
  let sp ← jsGet x "stringProp"
  match sp with
  | .arr l => do
    let found ← jsFind l fun s => do
      let n ← jsGet s "_name"
      .ok (jsEqStr n "Argument.value")
    jsOptGet found "_text"
  | _ => do
    let n ← jsGet sp "_name"
    if jsEqStr n "Argument.value" then jsGet sp "_text" else .ok .undefined

/-- One entry of the `.map` over `elementProp`:
`{ key: x._name, value: … }` followed by the `.reduce` body
`a[x.key] = x.value?.toString()`. -/
def labelEntry (x : JsVal) : Except Unit (String × Option String) := do
  let k ← jsGet x "_name"
  let v ← labelValue x
  .ok (jsPropKey k, jsToStringOpt v)

/-- The fused `.map(…).reduce(…, {})` over the `elementProp` array: both stop
at the first thrown `TypeError`, later assignments to the same key replace
earlier ones. -/
def collectLabels : List JsVal → List (String × Option String) →
    Except Unit (List (String × Option String))
  | [], acc => .ok acc
  | x :: xs, acc => do
    let e ← labelEntry x
    collectLabels xs (objUpsert acc e.1 e.2)

/-- The labelled-arguments extraction of the jmeter `close` callback
(`controller.ts` lines 211-222).  `parsed` is the XML parser's output for the
re-read specification file (`.error` when the read or the parse itself
failed).  The result is `.error` when any step throws (to be caught by the
surrounding `catch`), `.ok none` when the JS `labels` value is `false`
(missing or ill-shaped labelled-arguments section), and `.ok (some l)` with
the extracted key/value pairs otherwise. -/
def extractLabels (parsed : Except Unit JsVal) :
    Except Unit (Option (List (String × Option String))) := do
  let v ← parsed
  let p1 ← jsGet v "jmeterTestPlan"
  let p2 ← jsGet p1 "hashTree"
  let p3 ← jsGet p2 "hashTree"
  let args ← jsGet p3 "Arguments"
  match args with
  | .arr l => do
    let found ← jsFind l fun x => do
      let n ← jsGet x "_testname"
      .ok (jsEqStr n "Labels")
    let cp ← jsOptGet found "collectionProp"
    let elements ← jsOptGet cp "elementProp"
    match elements with
    | .arr es => do
      let labels ← collectLabels es []
      .ok (some labels)
    | _ => .ok none
  | _ => .ok none

/-- `{ ...labels, category: run.category, name: run.name }`: the spread of
the extracted labels (no keys when the JS `labels` value is `false`) with the
two fixed dimensions overriding any extracted key of the same name. -/
def metricLabels (labels : Option (List (String × Option String)))
    (category : Option String) (name : String) : List (String × Option String) :=
  objUpsert (objUpsert (labels.getD []) "category" category) "name" (some name)

/-- One recorded observation of the `jmeter_test_duration` gauge:
`endTimer(labels)` with the measured seconds. -/
structure MetricSample where
  labels : List (String × Option String)
  seconds : ℚ
deriving DecidableEq

/-! ### Metadata serialization (`JSON.stringify` / `JSON.parse`) -/

def statusToString : TestRunStatus → String
  | .running => "running"
  | .done => "done"
  | .cancelled => "cancelled"
  | .queued => "queued"

def statusOfString (s : String) : Option TestRunStatus :=
  if s = "running" then some .running
  else if s = "done" then some .done
  else if s = "cancelled" then some .cancelled
  else if s = "queued" then some .queued
  else none

/-- `JSON.stringify(run)` as a parsed JSON value: the `TestRun` fields in
interface order; properties whose value is `undefined` are dropped by
`JSON.stringify`.  The timestamp is serialized through its numeric model (see
the header comment). -/
def encodeRun (r : TestRun) : JsVal :=
  .obj ([("id", .str r.id), ("name", .str r.name)]
    ++ (match r.category with | some c => [("category", JsVal.str c)] | none => [])
    ++ [("timestamp", .num (r.timestamp : ℚ)), ("status", .str (statusToString r.status))]
    ++ (match r.code with | some c => [("code", JsVal.num (c : ℚ))] | none => [])
    ++ (match r.duration with | some d => [("duration", JsVal.num d)] | none => []))

def jsLookup (fields : List (String × JsVal)) (k : String) : Option JsVal :=
  (fields.find? fun x => x.1 = k).map Prod.snd

/-- `JSON.parse` of a metadata file interpreted as a `TestRun` (the
`as TestRun` cast in `_importTest`). -/
def decodeRun (v : JsVal) : Option TestRun :=
  match v with
  | .obj fields => do
    let id ← match jsLookup fields "id" with | some (.str s) => some s | _ => none
    let name ← match jsLookup fields "name" with | some (.str s) => some s | _ => none
    let category ← match jsLookup fields "category" with
      | some (.str s) => some (some s)
      | none => some none
      | some _ => none
    let timestamp ← match jsLookup fields "timestamp" with
      | some (.num q) => if q.den = 1 ∧ 0 ≤ q.num then some q.num.toNat else none
      | _ => none
    let status ← match jsLookup fields "status" with
      | some (.str s) => statusOfString s
      | _ => none
    let code ← match jsLookup fields "code" with
      | some (.num q) => if q.den = 1 then some (some q.num) else none
      | none => some none
      | some _ => none
    let duration ← match jsLookup fields "duration" with
      | some (.num q) => some (some q)
      | none => some none
      | some _ => none
    some { id := id, name := name, category := category, timestamp := timestamp,
           status := status, code := code, duration := duration }
  | _ => none

/-! ### The controller state and its operations -/

/-- A registered jmeter `close` callback: the pid of the spawned process and
the `run` value the closure captured at spawn time. -/
structure PendingClose where
  pid : Nat
  run : TestRun
deriving DecidableEq, Repr

/-- The whole observable state of the `Controller`: `_status`, `_testsById`
(insertion-ordered), the not-yet-fired `close` callbacks, the filesystem and
the recorded duration-metric samples. -/
structure ControllerState where
  status : ControllerStatus
  tests : List Test
  pending : List PendingClose
  fs : FileSys
  metrics : List MetricSample

def initialState : ControllerState :=
  { status := .idle, tests := [], pending := [], fs := ⟨[], [], []⟩, metrics := [] }

/-- `_writeMetadata(run)`: `JSON.stringify(run)` written to
`tempFolder/run.id/metadata.json`.  `fs.writeFileSync` throws `ENOENT` when
the run's temp directory is missing; the exception leaves the filesystem
unchanged (the one call site where the abort of the remaining statements
matters, the `close` callback, models it explicitly). -/
def writeMetadata (fs : FileSys) (run : TestRun) : FileSys :=
  if run.id ∈ fs.tempDirs then
    { fs with files := fileWrite fs.files ⟨tempRoot, run.id, metadataName⟩ (.json (encodeRun run)) }
  else fs

/-- `_moveToResults(id)`: `cp -r tempPath testPath && rm -rf tempPath`,
modelled synchronously, the copy replacing the destination directory.  When
the temp directory is missing the shell command fails and is only logged. -/
def moveToResults (fs : FileSys) (id : String) : FileSys :=
  if id ∈ fs.tempDirs then
    { tempDirs := fs.tempDirs.filter fun d => ¬ d = id
      testDirs := if id ∈ fs.testDirs then fs.testDirs else id :: fs.testDirs
      files := (fs.files.filter fun pc => ¬ (pc.1.root = testRoot ∧ pc.1.id = id)).map
        fun pc =>
          if pc.1.root = tempRoot ∧ pc.1.id = id then (⟨testRoot, pc.1.id, pc.1.name⟩, pc.2)
          else pc }
  else fs

/-- The plain assignment of the `status` setter (`this._status = status`).
The setter's dequeue side effect fires only for `idle` and lives in
`setStatus`; setter writes of `running` and `paused` reduce to this. -/
def assignStatus (s : ControllerState) (st : ControllerStatus) : ControllerState :=
  { s with status := st }

/-- `_runTest(testRun)` (`controller.ts` lines 185-204): refresh the
timestamp, spawn jmeter (pid `pid`, registering the `close` callback over the
captured `run` value), write the `running` metadata, install run and process
handle in the registry, and set the controller status to `running` (a plain
assignment in the setter). -/
def runTest (s : ControllerState) (testRun : TestRun) (now : Nat) (pid : Nat) : ControllerState :=
  let run : TestRun := { testRun with timestamp := now, status := .running }
  let s := { s with pending := ⟨pid, run⟩ :: s.pending }
  let s := { s with fs := writeMetadata s.fs run }
  let s := { s with tests := upsertTest s.tests ⟨run, some pid⟩ }
  assignStatus s .running

/-- `this._testRunsByTimestamp([queued]).shift()` in the status setter. -/
def firstQueued (tests : List Test) : Option TestRun :=
  (testRunsByTimestamp tests [.queued]).head?

/-- The `status` setter (`controller.ts` lines 51-62): assign the status and,
on `idle`, start the earliest queued run if one exists. -/
def setStatus (s : ControllerState) (st : ControllerStatus) (now : Nat) (pid : Nat) :
    ControllerState :=
  let s := assignStatus s st
  if st = .idle then
    match firstQueued s.tests with
    | some r => runTest s r now pid
    | none => s
  else s

/-- `_cancelTest(test)` (`controller.ts` lines 103-119): if a process handle
is present, request the kill (best-effort, only logged) and set the
controller status to `paused`; then re-register the run as `cancelled` with
the handle cleared.  Returns the upserted test, as the source does. -/
def cancelTestInternal (s : ControllerState) (test : Test) : ControllerState × Test :=
  let s := if test.process.isSome then assignStatus s .paused else s
  let t : Test := ⟨{ test.run with status := .cancelled }, none⟩
  ({ s with tests := upsertTest s.tests t }, t)

/-- `_exportTestRun(run)`: write the metadata, archive the directory. -/
def exportTestRun (s : ControllerState) (run : TestRun) : ControllerState :=
  { s with fs := moveToResults (writeMetadata s.fs run) run.id }

/-- public `cancelTest(id)` (`controller.ts` lines 303-308): silently nothing
for an unknown id, else `_cancelTest` followed by `_exportTestRun`. -/
def cancelTest (s : ControllerState) (id : String) : ControllerState :=
  match getTest s.tests id with
  | none => s
  | some test =>
    let r := cancelTestInternal s test
    exportTestRun r.1 r.2.run

def testExists (s : ControllerState) (id : String) : Bool :=
  (getTest s.tests id).isSome

/-- `!!test && test.run.status === running` over a registry list. -/
def runningIn (tests : List Test) (id : String) : Bool :=
  match getTest tests id with
  | some t => t.run.status = .running
  | none => false

/-- public `testRunning(id)`. -/
def testRunning (s : ControllerState) (id : String) : Bool :=
  runningIn s.tests id

/-- public `testStatus(id)`. -/
def testStatus (s : ControllerState) (id : String) : Option TestRunStatus :=
  (getTest s.tests id).map fun t => t.run.status

/-- public getter `runningCount`. -/
def runningCount (s : ControllerState) : Nat :=
  (s.tests.filter fun x => x.run.status = .running).length

/-- public `deleteTest(id)` (`controller.ts` lines 310-340).  Note the
source's guard on the last removal: deleting the run's temp-root directory is
conditioned on `testDataExists` (sic), not on `runDataExists`. -/
def deleteTest (s : ControllerState) (id : String) : ControllerState × Bool :=
  let exists_ := testExists s id
  let s :=
    if exists_ then
      let s :=
        match getTest s.tests id with
        | some t =>
          if t.run.status = TestRunStatus.running then (cancelTestInternal s t).1 else s
        | none => s
      { s with tests := removeTest s.tests id }
    else s
  let testDataExists := id ∈ s.fs.testDirs
  let s :=
    if testDataExists then
      { s with fs := { s.fs with
          testDirs := s.fs.testDirs.filter fun d => ¬ d = id,
          files := s.fs.files.filter fun pc => ¬ (pc.1.root = testRoot ∧ pc.1.id = id) } }
    else s
  let runDataExists := id ∈ s.fs.tempDirs
  let s :=
    if testDataExists then
      { s with fs := { s.fs with
          tempDirs := s.fs.tempDirs.filter fun d => ¬ d = id,
          files := s.fs.files.filter fun pc => ¬ (pc.1.root = tempRoot ∧ pc.1.id = id) } }
    else s
  (s, exists_ || testDataExists || runDataExists)

/-- `_queueTest(body, category)` followed by the dequeue check of public
`scheduleTestRun` (`controller.ts` lines 162-183 and 415-423).  `id` stands
for the fresh `uuidv4()`, `name` for the test-plan name the XML parser
extracts from `body`, `now` for `new Date().toISOString()`.  When the
controller is idle the newly queued run is started at once (pid `pid`). -/
def scheduleTestRun (s : ControllerState) (id name : String) (category : Option String)
    (body : String) (now : Nat) (pid : Nat) : ControllerState :=
  let fs := { s.fs with tempDirs := id :: s.fs.tempDirs }
  let fs := { fs with files := fileWrite fs.files ⟨tempRoot, id, testName⟩ (.text body) }
  let run : TestRun := { id := id, name := name, category := category,
                         timestamp := now, status := .queued, code := none, duration := none }
  let fs := writeMetadata fs run
  let s := { s with fs := fs, tests := upsertTest s.tests ⟨run, none⟩ }
  if s.status = .idle then runTest s run now pid else s

/-- public `resume()` (`controller.ts` lines 425-428): unconditionally write
`idle` through the status setter and return the resulting status. -/
def resume (s : ControllerState) (now : Nat) (pid : Nat) : ControllerState × ControllerStatus :=
  let s := setStatus s .idle now pid
  (s, s.status)

/-- The jmeter `close` callback (`controller.ts` lines 206-239) of the
pending process `p`, firing with exit code `code` and optional `signal`;
`parsed` is the XML parser's output for the re-read specification file and
`dur` the seconds measured by the prometheus gauge timer.  With a signal the
event is only logged.  Otherwise the duration is computed — a thrown label
extraction is caught, logging a warning and leaving the duration undefined
with no metric sample recorded — the captured run is re-registered as `done`
with the exit code and the (kept) process handle, its metadata is written and
the directory archived, and the controller goes `idle` (dequeueing, new pid
`pid2`) on exit code 0 and `paused` otherwise.  When the metadata write
throws because the temp directory is already gone, the outer catch only logs:
the archive step and the status write are not executed. -/
def onClose (s : ControllerState) (p : PendingClose) (code : Int) (signal : Option String)
    (parsed : Except Unit JsVal) (dur : ℚ) (now : Nat) (pid2 : Nat) : ControllerState :=
  let s := { s with pending := s.pending.filter fun q => ¬ q = p }
  match signal with
  | some _ => s
  | none =>
    let dm : Option ℚ × List MetricSample :=
      match extractLabels parsed with
      | .error _ => (none, s.metrics)
      | .ok labels =>
        (some dur, s.metrics ++ [⟨metricLabels labels p.run.category p.run.name, dur⟩])
    let updated : Test :=
      ⟨{ p.run with status := .done, code := some code, duration := dm.1 }, some p.pid⟩
    let s := { s with tests := upsertTest s.tests updated, metrics := dm.2 }
    if p.run.id ∈ s.fs.tempDirs then
      let s := { s with fs := moveToResults (writeMetadata s.fs updated.run) p.run.id }
      setStatus s (if code = 0 then .idle else .paused) now pid2
    else s

/-- `_importTest(id)` (`controller.ts` lines 81-96): read
`testFolder/id/metadata.json` if present, parse it as a `TestRun`, rewrite a
persisted `running` status to `cancelled` ("just in case": no live process
can correspond to it), and register the run without a process handle.  A
missing file is skipped; `JSON.parse` of invalid JSON throws out of the
whole importing pass (modelled as skipping — no claim depends on it). -/
def importTest (s : ControllerState) (id : String) : ControllerState :=
  match getFile s.fs.files ⟨testRoot, id, metadataName⟩ with
  | some (.json j) =>
    match decodeRun j with
    | some run =>
      let run := if run.status = .running then { run with status := .cancelled } else run
      { s with tests := upsertTest s.tests ⟨run, none⟩ }
    | none => s
  | _ => s

/-! ### Status page (`getTestRunStatus`, the spec's `tailOutput`) -/

inductive TailError where
  | testNotFound
  | logNotFound
deriving DecidableEq, Repr

/-- The data handed to the Mustache status template: the run's fields, the
refresh interval while running, and the output tail. -/
structure StatusData where
  run : TestRun
  refresh : Option Nat
  output : String
deriving DecidableEq, Repr

/-- Model of the `read-last-lines` library: the last `n` lines of the
content; the entire content when it has no more than `n` lines. -/
def lastNLines (n : Nat) (s : String) : String :=
  let ls := s.splitOn "\n"
  if ls.length ≤ n then s else String.intercalate "\n" (ls.drop (ls.length - n))

/-- public `getTestRunStatus(id, limit = 1000)` (`controller.ts` lines
354-366), up to the Mustache rendering of the status template (HTML rendering
is an external collaborator per the spec's scope): an unknown id throws
(`Test … does not exist`), a missing `output.log` makes both readers fail
with their not-found condition (`ENOENT` / the library's rejection), and
otherwise the output is the whole log when `limit` is the falsy 0 and its
last `limit` lines otherwise. -/
def getTestRunStatus (s : ControllerState) (id : String) (refreshTimeInSeconds : Nat)
    (limit : Nat := 1000) : Except TailError StatusData :=
  match getTest s.tests id with
  | none => .error .testNotFound
  | some test =>
    match readTextFile s.fs ⟨tempRoot, id, outputName⟩ with
    | none => .error .logNotFound
    | some content =>
      .ok { run := test.run,
            refresh := if test.run.status = .running then some refreshTimeInSeconds else none,
            output := if limit ≠ 0 then lastNLines limit content else content }

/-! ### The HTTP delete route (`server.ts` lines 356-381) -/

inductive DeleteResponse where
  | cancelledResp
  | deletedResp
  | notFoundResp
deriving DecidableEq, Repr

/-- `DELETE /test/:id?confirm=`: cancel first when the run is running;
without `confirm` reply `Test cancelled` (even for an unknown id); with
`confirm`, delete and reply `Test deleted` or 404. -/
def deleteTestRoute (s : ControllerState) (id : String) (confirm : Bool) :
    ControllerState × DeleteResponse :=
  let s := if testRunning s id then cancelTest s id else s
  if ¬ confirm then (s, .cancelledResp)
  else
    let r := deleteTest s id
    (r.1, if r.2 then .deletedResp else .notFoundResp)

/-! ### Public operations as a step relation -/

/-- One public operation of the controller as invocable through the HTTP
layer (`scheduleTestRun`, `cancelTest`, `deleteTest`, `resume`), plus the
asynchronous jmeter `close` callback of a spawned process.  `uuidv4()` ids
are fresh. -/
inductive Step : ControllerState → ControllerState → Prop where
  | schedule (s : ControllerState) (id name : String) (category : Option String)
      (body : String) (now pid : Nat) (hfresh : getTest s.tests id = none) :
      Step s (scheduleTestRun s id name category body now pid)
  | cancel (s : ControllerState) (id : String) : Step s (cancelTest s id)
  | delete (s : ControllerState) (id : String) : Step s (deleteTest s id).1
  | resumeStep (s : ControllerState) (now pid : Nat) : Step s (resume s now pid).1
  | close (s : ControllerState) (p : PendingClose) (code : Int) (signal : Option String)
      (parsed : Except Unit JsVal) (dur : ℚ) (now pid2 : Nat) (hp : p ∈ s.pending) :
      Step s (onClose s p code signal parsed dur now pid2)

/-- States reachable from a freshly constructed controller through public
operations. -/
inductive Reachable : ControllerState → Prop where
  | init : Reachable initialState
  | step {s s' : ControllerState} : Reachable s → Step s s' → Reachable s'

/-! ### State predicates -/

/-- Every `running` run in the registry holds a live process handle (the
handle is installed by `_runTest` together with the `running` status and only
cleared together with a status change). -/
def HandleInvT (tests : List Test) : Prop :=
  ∀ t ∈ tests, t.run.status = .running → t.process.isSome = true

/-- The registry keys are distinct (a JS object cannot hold two entries for
one id). -/
abbrev NodupIds (tests : List Test) : Prop :=
  (tests.map fun t => t.run.id).Nodup

/-- The invariant claimed for the scheduling state machine: at most one run
is `running`, the controller is `running` iff exactly one run is, and `idle`
means none is. -/
def SingleFlightInv (s : ControllerState) : Prop :=
  runningCount s ≤ 1 ∧
  (s.status = .running ↔ runningCount s = 1) ∧
  (s.status = .idle → runningCount s = 0)

/-! ### Concrete scenario states

A fresh controller receives two submissions (the first starts at once, the
second queues behind it), then an operator hits resume; afterwards a third
submission queues and the first run is cancelled; finally the second run's
process exits normally with code 0. -/

def sA : ControllerState := scheduleTestRun initialState "a" "T" none "x" 0 1

def sB : ControllerState := scheduleTestRun sA "b" "T" none "x" 1 2

def sR : ControllerState := (resume sB 2 3).1

def sC : ControllerState := scheduleTestRun sR "c" "T" none "x" 3 4

def sK : ControllerState := cancelTest sC "a"

/-- The `run` value captured by the close callback of the process spawned for
"b" (by the resume at time 2, pid 3). -/
def capB : TestRun :=
  { id := "b", name := "T", category := none, timestamp := 2, status := .running,
    code := none, duration := none }

/-- The close event of run "b": exit code 0, no signal. -/
def sD : ControllerState := onClose sK ⟨3, capB⟩ 0 none (.ok (.obj [])) 1 4 5

/-- The `run` value captured by the close callback of the process spawned for
"a" (at submission, time 0, pid 1). -/
def capA : TestRun :=
  { id := "a", name := "T", category := none, timestamp := 0, status := .running,
    code := none, duration := none }

/-- Run "a" finishing (exit code 0, no signal) while its re-read
specification parses to an object without the expected
`jmeterTestPlan.hashTree.hashTree` structure, so that the label extraction
throws. -/
def sE : ControllerState := onClose sA ⟨1, capA⟩ 0 none (.ok (.obj [])) 1 9 9

/-- `sA` with a captured output log of three lines for run "a". -/
def sLog : ControllerState :=
  { sA with fs := { sA.fs with
      files := fileWrite sA.fs.files ⟨tempRoot, "a", outputName⟩ (.text "l1\nl2\nl3") } }

/-- A `running` run to be persisted and re-imported. -/
def mdRun : TestRun :=
  { id := "m", name := "N", category := some "g", timestamp := 7, status := .running,
    code := some 1, duration := some (3 / 2) }

/-- Persist `run` (to its temp directory), archive the directory, then import
it back from the permanent root: the write/read round trip of the metadata
store. -/
def metadataRoundTrip (s : ControllerState) (run : TestRun) : ControllerState :=
  importTest { s with fs := moveToResults (writeMetadata s.fs run) run.id } run.id

/-- A state whose only on-disk artifact is the temp directory of `mdRun`. -/
def mdState : ControllerState :=
  { initialState with fs := ⟨["m"], [], []⟩ }

/-- `mdRun` as already completed. -/
def mdRunDone : TestRun := { mdRun with status := .done }

/-- The queued run record of submission "b". -/
def bQueued : TestRun :=
  { id := "b", name := "T", category := none, timestamp := 1, status := .queued,
    code := none, duration := none }

/-- The queued run record of submission "c". -/
def cQueued : TestRun :=
  { id := "c", name := "T", category := none, timestamp := 3, status := .queued,
    code := none, duration := none }

/-- A lone registry entry without a process handle. -/
def wTest : Test :=
  ⟨{ id := "w", name := "W", category := none, timestamp := 5, status := .done,
     code := some 0, duration := none }, none⟩

/-- A controller holding only `wTest`. -/
def wState : ControllerState :=
  { status := .running, tests := [wTest], pending := [], fs := ⟨[], [], []⟩, metrics := [] }

/-- A spec document whose parse lacks the `jmeterTestPlan.hashTree.hashTree`
structure entirely, so that the `Arguments` access throws. -/
def badParsed : Except Unit JsVal := .ok (.obj [])

/-- A spec document with the test-plan structure but no labelled-arguments
section: the extraction evaluates to the JS value `false` without throwing. -/
def noLabelsParsed : Except Unit JsVal :=
  .ok (.obj [("jmeterTestPlan", .obj [("hashTree", .obj [("hashTree", .obj [])])])])

/-! ## Registry lemmas -/

theorem getTest_upsertTest_self (l : List Test) (t : Test) :
    getTest (upsertTest l t) t.run.id = some t := by
  induction l with
  | nil => simp [upsertTest, getTest]
  | cons x xs ih =>
    by_cases h : x.run.id = t.run.id
    · simp [upsertTest, h, getTest]
    · simpa [upsertTest, h, getTest] using ih

theorem getTest_upsertTest_ne (l : List Test) (t : Test) (id : String)
    (h : ¬ id = t.run.id) : getTest (upsertTest l t) id = getTest l id := by
  have h2 : ¬ t.run.id = id := fun hh => h hh.symm
  induction l with
  | nil => simp [upsertTest, getTest, h2]
  | cons x xs ih =>
    by_cases hx : x.run.id = t.run.id
    · have hxid : ¬ x.run.id = id := fun hh => h2 (hx.symm.trans hh)
      simp [upsertTest, hx, getTest, h2, hxid]
    · by_cases hxi : x.run.id = id
      · simp [upsertTest, hx, getTest, hxi, h]
      · simpa [upsertTest, hx, getTest, hxi] using ih

theorem self_mem_upsertTest (l : List Test) (t : Test) : t ∈ upsertTest l t := by
  induction l with
  | nil => simp [upsertTest]
  | cons x xs ih =>
    by_cases h : x.run.id = t.run.id
    · simp [upsertTest, h]
    · simp only [upsertTest, if_neg h]
      exact List.mem_cons_of_mem x ih

theorem mem_upsertTest {l : List Test} {t x : Test} (h : x ∈ upsertTest l t) :
    x = t ∨ x ∈ l := by
  induction l with
  | nil => simpa [upsertTest] using h
  | cons y ys ih =>
    by_cases hy : y.run.id = t.run.id
    · simp only [upsertTest, if_pos hy] at h
      rcases List.mem_cons.mp h with h | h
      · exact Or.inl h
      · exact Or.inr (List.mem_cons_of_mem y h)
    · simp only [upsertTest, if_neg hy] at h
      rcases List.mem_cons.mp h with h | h
      · exact Or.inr (h ▸ List.mem_cons_self y ys)
      · rcases ih h with h | h
        · exact Or.inl h
        · exact Or.inr (List.mem_cons_of_mem y h)

theorem nodupIds_upsertTest {l : List Test} (h : NodupIds l) (t : Test) :
    NodupIds (upsertTest l t) := by
  induction l with
  | nil => simp [upsertTest, NodupIds]
  | cons x xs ih =>
    have hxs : NodupIds xs := (List.nodup_cons.mp h).2
    have hxx : x.run.id ∉ xs.map fun y => y.run.id := (List.nodup_cons.mp h).1
    by_cases hx : x.run.id = t.run.id
    · unfold NodupIds
      simp only [upsertTest, if_pos hx, List.map_cons]
      exact List.nodup_cons.mpr ⟨hx ▸ hxx, hxs⟩
    · unfold NodupIds
      simp only [upsertTest, if_neg hx, List.map_cons]
      refine List.nodup_cons.mpr ⟨?_, ih hxs⟩
      intro hmem
      rcases List.mem_map.mp hmem with ⟨e, he, hei⟩
      rcases mem_upsertTest he with rfl | he2
      · exact hx hei.symm
      · exact hxx (hei ▸ List.mem_map_of_mem (fun y => y.run.id) he2)

theorem eq_of_mem_nodupIds {l : List Test} (h : NodupIds l) {a b : Test}
    (ha : a ∈ l) (hb : b ∈ l) (hid : a.run.id = b.run.id) : a = b := by
  induction l with
  | nil => cases ha
  | cons x xs ih =>
    have hnd : NodupIds xs := (List.nodup_cons.mp h).2
    rcases List.mem_cons.mp ha with ha | ha <;> rcases List.mem_cons.mp hb with hb | hb
    · exact ha.trans hb.symm
    · exfalso
      apply (List.nodup_cons.mp h).1
      exact List.mem_map.mpr ⟨b, hb, show b.run.id = x.run.id by rw [← hid, ha]⟩
    · exfalso
      apply (List.nodup_cons.mp h).1
      exact List.mem_map.mpr ⟨a, ha, show a.run.id = x.run.id by rw [hid, hb]⟩
    · exact ih hnd ha hb

theorem getTest_mem {l : List Test} {id : String} {t : Test}
    (h : getTest l id = some t) : t ∈ l ∧ t.run.id = id := by
  induction l with
  | nil => cases h
  | cons x xs ih =>
    by_cases hx : x.run.id = id
    · simp only [getTest, if_pos hx] at h
      cases h
      exact ⟨List.mem_cons_self _ _, hx⟩
    · simp only [getTest, if_neg hx] at h
      exact ⟨List.mem_cons_of_mem x (ih h).1, (ih h).2⟩

theorem getTest_removeTest_self (l : List Test) (j : String) :
    getTest (removeTest l j) j = none := by
  induction l with
  | nil => rfl
  | cons x xs ih =>
    by_cases hx : x.run.id = j
    · simpa [removeTest, List.filter_cons, hx] using ih
    · simpa [removeTest, List.filter_cons, hx, getTest] using ih

theorem getTest_removeTest_ne (l : List Test) (j i : String) (h : ¬ i = j) :
    getTest (removeTest l j) i = getTest l i := by
  have h2 : ¬ j = i := fun hh => h hh.symm
  induction l with
  | nil => rfl
  | cons x xs ih =>
    by_cases hx : x.run.id = j
    · have hxi : ¬ x.run.id = i := fun hh => h2 (hx.symm.trans hh)
      simpa [removeTest, List.filter_cons, hx, getTest, hxi, h2] using ih
    · by_cases hxi : x.run.id = i
      · simp [removeTest, List.filter_cons, hx, getTest, hxi, h]
      · simpa [removeTest, List.filter_cons, hx, getTest, hxi] using ih

theorem runningIn_removeTest {l : List Test} {j i : String}
    (h : runningIn (removeTest l j) i = true) : runningIn l i = true := by
  by_cases hij : i = j
  · subst hij
    rw [runningIn, getTest_removeTest_self] at h
    cases h
  · rwa [runningIn, getTest_removeTest_ne l j i hij, ← runningIn] at h

theorem runningIn_upsertTest_not_running {l : List Test} {t : Test} {i : String}
    (ht : ¬ t.run.status = .running) (h : runningIn (upsertTest l t) i = true) :
    runningIn l i = true := by
  by_cases hit : i = t.run.id
  · subst hit
    rw [runningIn, getTest_upsertTest_self] at h
    simp only [decide_eq_true_eq] at h
    exact absurd h ht
  · rwa [runningIn, getTest_upsertTest_ne l t i hit, ← runningIn] at h

/-! ## Dequeue-order lemmas (`_testRunsByTimestamp([queued]).shift()`) -/

theorem mem_testRunsByTimestamp {tests : List Test} {r : TestRun}
    (h : r ∈ testRunsByTimestamp tests [.queued]) :
    (∃ e ∈ tests, e.run = r) ∧ r.status = .queued := by
  unfold testRunsByTimestamp at h
  have h2 := (List.perm_insertionSort byTimestamp _).subset h
  have h3 := List.mem_filter.mp h2
  refine ⟨?_, ?_⟩
  · rcases List.mem_map.mp h3.1 with ⟨e, he, hr⟩
    exact ⟨e, he, hr⟩
  · simpa [List.contains_cons] using h3.2

theorem firstQueued_spec {tests : List Test} {r : TestRun}
    (h : firstQueued tests = some r) :
    (∃ e ∈ tests, e.run = r) ∧ r.status = .queued ∧
      ∀ e ∈ tests, e.run.status = .queued → r.timestamp ≤ e.run.timestamp := by
  unfold firstQueued at h
  rcases hs : testRunsByTimestamp tests [.queued] with _ | ⟨x, rest⟩
  · rw [hs] at h; cases h
  · rw [hs] at h
    have hrx : x = r := by simpa using h
    subst hrx
    have hmem := mem_testRunsByTimestamp (show x ∈ _ by rw [hs]; exact List.mem_cons_self x rest)
    refine ⟨hmem.1, hmem.2, ?_⟩
    intro e he hq
    have hsorted : List.Sorted byTimestamp (testRunsByTimestamp tests [.queued]) := by
      unfold testRunsByTimestamp
      exact List.sorted_insertionSort byTimestamp _
    rw [hs] at hsorted
    have hein : e.run ∈ testRunsByTimestamp tests [.queued] := by
      unfold testRunsByTimestamp
      apply (List.perm_insertionSort byTimestamp _).mem_iff.mpr
      apply List.mem_filter.mpr
      exact ⟨List.mem_map_of_mem Test.run he, by simp [List.contains_cons, hq]⟩
    rw [hs] at hein
    rcases List.mem_cons.mp hein with hh | hh
    · rw [hh]
    · exact List.rel_of_sorted_cons hsorted _ hh

theorem firstQueued_none {tests : List Test} (h : firstQueued tests = none) :
    ∀ e ∈ tests, ¬ e.run.status = .queued := by
  intro e he hq
  unfold firstQueued at h
  rcases hs : testRunsByTimestamp tests [.queued] with _ | ⟨x, rest⟩
  · have : e.run ∈ testRunsByTimestamp tests [.queued] := by
      unfold testRunsByTimestamp
      apply (List.perm_insertionSort byTimestamp _).mem_iff.mpr
      apply List.mem_filter.mpr
      exact ⟨List.mem_map_of_mem Test.run he, by simp [List.contains_cons, hq]⟩
    rw [hs] at this
    cases this
  · rw [hs] at h
    cases h

/-! ## Status-setter lemmas -/

theorem setStatus_idle_of_none {s : ControllerState} {now pid : Nat}
    (h : firstQueued s.tests = none) :
    setStatus s .idle now pid = { s with status := .idle } := by
  unfold setStatus
  have h2 : firstQueued (assignStatus s .idle).tests = none := h
  simp only [if_pos rfl, h2]
  rfl

theorem setStatus_idle_of_some {s : ControllerState} {now pid : Nat} {r : TestRun}
    (h : firstQueued s.tests = some r) :
    (setStatus s .idle now pid).status = .running ∧
    getTest (setStatus s .idle now pid).tests r.id =
      some ⟨{ r with timestamp := now, status := .running }, some pid⟩ ∧
    (setStatus s .idle now pid).metrics = s.metrics := by
  unfold setStatus
  have h2 : firstQueued (assignStatus s .idle).tests = some r := h
  simp only [if_pos rfl, h2]
  refine ⟨rfl, ?_, rfl⟩
  exact getTest_upsertTest_self ((assignStatus s .idle).tests) _

/-- A registered entry that is not `queued` is untouched by the dequeue a
status write may trigger (the dequeued run has a different id since the
registry keys are distinct), and no status write records a metric sample. -/
theorem setStatus_preserves_entry {s : ControllerState} {u : Test} {i : String}
    (hnd : NodupIds s.tests) (hu : getTest s.tests i = some u)
    (hq : ¬ u.run.status = .queued) (st : ControllerStatus) (now pid : Nat) :
    getTest (setStatus s st now pid).tests i = some u ∧
    (setStatus s st now pid).metrics = s.metrics := by
  unfold setStatus
  by_cases hst : st = .idle
  · simp only [if_pos hst]
    rcases hf : firstQueued (assignStatus s st).tests with _ | r
    · exact ⟨hu, rfl⟩
    · have hspec := firstQueued_spec (show firstQueued s.tests = some r from hf)
      rcases hspec.1 with ⟨e, he, her⟩
      have hru : ¬ r.id = i := by
        intro hri
        have hui : u ∈ s.tests := (getTest_mem hu).1
        have heq : e = u := by
          apply eq_of_mem_nodupIds hnd he hui
          rw [her, hri, (getTest_mem hu).2]
        apply hq
        rw [← heq, her]
        exact hspec.2.1
      constructor
      · show getTest (upsertTest s.tests _) i = some u
        rw [getTest_upsertTest_ne]
        · exact hu
        · exact fun hh => hru (hh.symm)
      · rfl
  · simp only [if_neg hst]
    exact ⟨hu, rfl⟩

/-! ## The handle invariant: `running` registry entries hold a process -/

theorem handleInvT_upsert {l : List Test} {t : Test} (h : HandleInvT l)
    (ht : t.run.status = .running → t.process.isSome = true) :
    HandleInvT (upsertTest l t) := by
  intro x hx hrun
  rcases mem_upsertTest hx with rfl | hx2
  · exact ht hrun
  · exact h x hx2 hrun

theorem handleInvT_remove {l : List Test} (j : String) (h : HandleInvT l) :
    HandleInvT (removeTest l j) :=
  fun x hx => h x (List.mem_of_mem_filter hx)

theorem handleInvT_runTest {s : ControllerState} {r : TestRun} {now pid : Nat}
    (h : HandleInvT s.tests) : HandleInvT (runTest s r now pid).tests :=
  handleInvT_upsert h fun _ => rfl

theorem handleInvT_setStatus {s : ControllerState} {st : ControllerStatus} {now pid : Nat}
    (h : HandleInvT s.tests) : HandleInvT (setStatus s st now pid).tests := by
  unfold setStatus
  by_cases hst : st = .idle
  · simp only [if_pos hst]
    rcases hf : firstQueued (assignStatus s st).tests with _ | r <;> simp only [hf]
    · exact h
    · exact handleInvT_runTest h
  · simp only [if_neg hst]
    exact h

theorem handleInvT_cancelInternal {s : ControllerState} {t : Test}
    (h : HandleInvT s.tests) : HandleInvT (cancelTestInternal s t).1.tests := by
  unfold cancelTestInternal
  dsimp only
  refine handleInvT_upsert ?_ fun hr => nomatch hr
  split <;> exact h

theorem handleInvT_step {s s' : ControllerState} (hs : HandleInvT s.tests)
    (h : Step s s') : HandleInvT s'.tests := by
  cases h with
  | schedule id name category body now pid hfresh =>
    unfold scheduleTestRun
    dsimp only
    split
    · exact handleInvT_runTest (handleInvT_upsert hs fun hr => nomatch hr)
    · exact handleInvT_upsert hs fun hr => nomatch hr
  | cancel id =>
    unfold cancelTest
    rcases hg : getTest s.tests id with _ | t <;> simp only [hg]
    · exact hs
    · exact handleInvT_cancelInternal hs
  | delete id =>
    unfold deleteTest
    dsimp only
    repeat' (first | split | dsimp only)
    all_goals
      first
        | exact handleInvT_remove _ (handleInvT_cancelInternal hs)
        | exact handleInvT_remove _ hs
        | exact hs
  | resumeStep now pid => exact handleInvT_setStatus hs
  | close p code signal parsed dur now pid2 hp =>
    unfold onClose
    dsimp only
    repeat' (first | split | dsimp only)
    all_goals
      first
        | exact hs
        | exact handleInvT_setStatus (handleInvT_upsert hs fun hr => nomatch hr)
        | exact handleInvT_upsert hs fun hr => nomatch hr

theorem handleInv_reachable {s : ControllerState} (h : Reachable s) : HandleInvT s.tests := by
  induction h with
  | init => intro t ht _; cases ht
  | step hr hstep ih => exact handleInvT_step ih hstep

/-! ## Metadata store lemmas -/

theorem getFile_fileWrite_self (l : List (FPath × FileContent)) (p : FPath) (c : FileContent) :
    getFile (fileWrite l p c) p = some c := by
  induction l with
  | nil => simp [fileWrite, getFile]
  | cons x xs ih =>
    by_cases h : x.1 = p
    · simp [fileWrite, h, getFile]
    · simpa [fileWrite, h, getFile] using ih

theorem getFile_archive (l : List (FPath × FileContent)) (id name : String) (c : FileContent)
    (h : getFile l ⟨tempRoot, id, name⟩ = some c) :
    getFile ((l.filter fun pc => ¬ (pc.1.root = testRoot ∧ pc.1.id = id)).map
        fun pc =>
          if pc.1.root = tempRoot ∧ pc.1.id = id then
            ((⟨testRoot, pc.1.id, pc.1.name⟩ : FPath), pc.2)
          else pc)
      ⟨testRoot, id, name⟩ = some c := by
  induction l with
  | nil => cases h
  | cons x xs ih =>
    by_cases hx : x.1 = (⟨tempRoot, id, name⟩ : FPath)
    · simp only [getFile, if_pos hx] at h
      cases h
      have hkeep : ¬ (x.1.root = testRoot ∧ x.1.id = id) := by
        rw [hx]
        simp [tempRoot, testRoot]
      have hmap : x.1.root = tempRoot ∧ x.1.id = id := by rw [hx]; exact ⟨rfl, rfl⟩
      have hpath : ((⟨testRoot, x.1.id, x.1.name⟩ : FPath)) = ⟨testRoot, id, name⟩ := by
        rw [hx]
      simp only [List.filter_cons, decide_eq_true_eq, hkeep, not_false_eq_true,
        List.map_cons, if_pos hmap, getFile, hpath]
      rw [if_pos trivial]
    · simp only [getFile, if_neg hx] at h
      by_cases hdrop : x.1.root = testRoot ∧ x.1.id = id
      · simpa [List.filter_cons, hdrop] using ih h
      · have hne : ¬ ((if x.1.root = tempRoot ∧ x.1.id = id then
            ((⟨testRoot, x.1.id, x.1.name⟩ : FPath), x.2) else x).1 =
              (⟨testRoot, id, name⟩ : FPath)) := by
          by_cases hmap : x.1.root = tempRoot ∧ x.1.id = id
          · rw [if_pos hmap]
            intro hh
            apply hx
            have h1 : x.1.name = name := congrArg FPath.name hh
            rcases x with ⟨⟨xr, xi, xn⟩, xc⟩
            dsimp only at hmap h1 ⊢
            rw [hmap.1, hmap.2, h1]
          · rw [if_neg hmap]
            intro hh
            rcases x with ⟨⟨xr, xi, xn⟩, xc⟩
            dsimp only at hh hdrop
            cases hh
            exact hdrop ⟨rfl, rfl⟩
        simp only [List.filter_cons, decide_eq_true_eq, hdrop, not_false_eq_true,
          List.map_cons, getFile, if_neg hne]
        exact ih h

theorem getFile_moveToResults {fs : FileSys} {id name : String} {c : FileContent}
    (hdir : id ∈ fs.tempDirs)
    (h : getFile fs.files ⟨tempRoot, id, name⟩ = some c) :
    getFile (moveToResults fs id).files ⟨testRoot, id, name⟩ = some c := by
  unfold moveToResults
  rw [if_pos hdir]
  exact getFile_archive fs.files id name c h

theorem decodeRun_encodeRun (r : TestRun) : decodeRun (encodeRun r) = some r := by
  rcases r with ⟨id, name, category, timestamp, status, code, duration⟩
  rcases category with _ | cat <;> rcases code with _ | c <;> rcases duration with _ | d <;>
    rcases status with _ | _ | _ | _ <;>
      simp [decodeRun, encodeRun, jsLookup, statusToString, statusOfString,
        Rat.den_natCast, Rat.num_natCast, Rat.den_intCast, Rat.num_intCast,
        Int.toNat_natCast, Int.natCast_nonneg]

/-! ## Frame lemmas for the `paused` controller -/

theorem runningIn_cancelInternal {s : ControllerState} {t : Test} {i : String}
    (h : runningIn (cancelTestInternal s t).1.tests i = true) :
    runningIn s.tests i = true := by
  unfold cancelTestInternal at h
  dsimp only at h
  have h2 : runningIn (if t.process.isSome = true then assignStatus s .paused else s).tests i
      = true := by
    refine runningIn_upsertTest_not_running ?_ h
    intro hr
    exact nomatch hr
  revert h2
  split <;> exact id

theorem cancelInternal_status_paused {s : ControllerState} {t : Test}
    (hp : s.status = .paused) : (cancelTestInternal s t).1.status = .paused := by
  unfold cancelTestInternal
  dsimp only
  split
  · rfl
  · exact hp

theorem pausedFrame_schedule (s : ControllerState) (hp : s.status = .paused)
    (id name : String) (category : Option String) (body : String) (now pid : Nat) :
    (scheduleTestRun s id name category body now pid).status = .paused ∧
    ∀ i, runningIn (scheduleTestRun s id name category body now pid).tests i = true →
      runningIn s.tests i = true := by
  unfold scheduleTestRun
  dsimp only
  rw [if_neg (by simp [hp])]
  refine ⟨hp, fun i h => ?_⟩
  refine runningIn_upsertTest_not_running ?_ h
  intro hr
  exact nomatch hr

theorem pausedFrame_cancel (s : ControllerState) (hp : s.status = .paused) (id : String) :
    (cancelTest s id).status = .paused ∧
    ∀ i, runningIn (cancelTest s id).tests i = true → runningIn s.tests i = true := by
  unfold cancelTest
  rcases hg : getTest s.tests id with _ | t <;> simp only [hg]
  · exact ⟨hp, fun i h => h⟩
  · exact ⟨cancelInternal_status_paused hp, fun i h => runningIn_cancelInternal h⟩

theorem pausedFrame_delete (s : ControllerState) (hp : s.status = .paused) (id : String) :
    (deleteTest s id).1.status = .paused ∧
    ∀ i, runningIn (deleteTest s id).1.tests i = true → runningIn s.tests i = true := by
  unfold deleteTest
  dsimp only
  constructor
  · repeat' (first | split | dsimp only)
    all_goals first | rfl | exact hp | exact cancelInternal_status_paused hp
  · intro i h
    revert h
    repeat' (first | split | dsimp only)
    all_goals intro h
    all_goals
      first
        | exact runningIn_cancelInternal (runningIn_removeTest h)
        | exact runningIn_removeTest h
        | exact h

/-! ## Reachability of the scenario states -/

theorem reachable_sA : Reachable sA :=
  Reachable.step Reachable.init (Step.schedule initialState "a" "T" none "x" 0 1 rfl)

theorem reachable_sB : Reachable sB :=
  Reachable.step reachable_sA (Step.schedule sA "b" "T" none "x" 1 2 (by decide))

theorem reachable_sR : Reachable sR :=
  Reachable.step reachable_sB (Step.resumeStep sB 2 3)

theorem reachable_sC : Reachable sC :=
  Reachable.step reachable_sR (Step.schedule sR "c" "T" none "x" 3 4 (by decide))

theorem reachable_sK : Reachable sK :=
  Reachable.step reachable_sC (Step.cancel sC "a")

theorem reachable_sE : Reachable sE :=
  Reachable.step reachable_sA (Step.close sA ⟨1, capA⟩ 0 none (.ok (.obj [])) 1 9 9 (by decide))

/-! ## The claims -/

/-- C1: the claimed single-flight invariant — at most one Run `running`,
controller `running` iff exactly one Run is, `idle` implies none — is not
preserved by every public operation.  From the reachable state `sB` (run "a"
running, run "b" queued), which satisfies the invariant, the public
`resume()` operation unconditionally writes `idle`, dequeues "b" and starts
it while "a" is still running: afterwards two Runs have status `running`. -/
theorem C1_resume_breaks_single_flight :
    Reachable sB ∧ SingleFlightInv sB ∧ Step sB sR ∧ ¬ SingleFlightInv sR ∧
    runningCount sR = 2 ∧ testStatus sR "a" = some .running ∧
    testStatus sR "b" = some .running := by
  refine ⟨reachable_sB, ?_, Step.resumeStep sB 2 3, ?_, by decide, rfl, rfl⟩
  · unfold SingleFlightInv
    decide
  · unfold SingleFlightInv
    decide

/-- C2 is false as stated: in the reachable paused state `sK` (run "a"
cancelled after `cancel`, run "b" still running from the earlier resume, run
"c" queued), the close event of run "b" — exit code 0, no signal; an
operation other than an explicit `resume()` call — dequeues and starts the
queued run "c". -/
theorem C2_close_starts_queued_while_paused :
    Reachable sK ∧ sK.status = .paused ∧ testStatus sK "c" = some .queued ∧
    Step sK sD ∧ (∀ now pid, ¬ (resume sK now pid).1 = sD) ∧
    testStatus sD "c" = some .running ∧ sD.status = .running := by
  refine ⟨reachable_sK, rfl, rfl,
    Step.close sK ⟨3, capB⟩ 0 none (.ok (.obj [])) 1 4 5 (by decide), ?_, rfl, rfl⟩
  intro now pid heq
  have h1 : ((resume sK now pid).1).pending.length = 3 := by
    show (setStatus sK .idle now pid).pending.length = 3
    unfold setStatus
    rw [if_pos rfl]
    have hq : firstQueued (assignStatus sK .idle).tests = some cQueued := by rfl
    rw [hq]
    rfl
  rw [heq] at h1
  have h2 : sD.pending.length = 2 := by rfl
  rw [h1] at h2
  cases h2

/-- C2 (amended): cancelling a running run does set the controller to
`paused` — in every reachable state a running run holds a live process
handle, so `_cancelTest` kills it and pauses — and from `paused` none of
`scheduleTestRun`, `cancelTest` and `deleteTest` ever starts a queued run:
the controller stays `paused` and no run becomes `running` that was not
already.  (A queued run can still start without `resume()`: a pending
process close event with no signal and exit code 0 drives the controller
through `idle`, as the counterexample shows.) -/
theorem C2_pause_frame :
    (∀ s id, Reachable s → testRunning s id = true → (cancelTest s id).status = .paused) ∧
    (∀ s : ControllerState, s.status = ControllerStatus.paused →
      (∀ id name category body now pid,
        (scheduleTestRun s id name category body now pid).status = .paused ∧
        ∀ i, testRunning (scheduleTestRun s id name category body now pid) i = true →
          testRunning s i = true) ∧
      (∀ id, (cancelTest s id).status = .paused ∧
        ∀ i, testRunning (cancelTest s id) i = true → testRunning s i = true) ∧
      (∀ id, (deleteTest s id).1.status = .paused ∧
        ∀ i, testRunning (deleteTest s id).1 i = true → testRunning s i = true)) := by
  constructor
  · intro s id hreach hrun
    unfold testRunning runningIn at hrun
    rcases hg : getTest s.tests id with _ | t
    · rw [hg] at hrun
      cases hrun
    · rw [hg] at hrun
      have hts : t.run.status = .running := by simpa using hrun
      have hproc : t.process.isSome = true :=
        handleInv_reachable hreach t (getTest_mem hg).1 hts
      unfold cancelTest
      rw [hg]
      show (cancelTestInternal s t).1.status = .paused
      unfold cancelTestInternal
      dsimp only
      rw [if_pos hproc]
      rfl
  · intro s hp
    exact ⟨fun id name category body now pid =>
        pausedFrame_schedule s hp id name category body now pid,
      fun id => pausedFrame_cancel s hp id,
      fun id => pausedFrame_delete s hp id⟩

/-- Witness for C2 (amended): cancelling the running "a" in `sA` pauses the
controller, and scheduling from the paused `sK` leaves it paused. -/
theorem C2_pause_frame_witness :
    testRunning sA "a" = true ∧ (cancelTest sA "a").status = .paused ∧
    sK.status = .paused ∧ (scheduleTestRun sK "z" "Z" none "x" 9 9).status = .paused := by
  refine ⟨by decide, C2_pause_frame.1 sA "a" reachable_sA (by decide), rfl, ?_⟩
  exact ((C2_pause_frame.2 sK rfl).1 "z" "Z" none "x" 9 9).1

/-- C3: whenever the controller status is set to `idle`: if at least one Run
is queued, the queued Run with the earliest parsed timestamp is started —
it transitions to `running` (with refreshed timestamp and a live process
handle) and the controller to `running`; if no Run is queued, the registry
is left unchanged and the controller stays `idle`. -/
theorem C3_idle_transition (s : ControllerState) (now pid : Nat) :
    (firstQueued s.tests = none →
      (∀ e ∈ s.tests, ¬ e.run.status = .queued) ∧
      setStatus s .idle now pid = { s with status := .idle }) ∧
    (∀ r, firstQueued s.tests = some r →
      (∃ e ∈ s.tests, e.run = r) ∧ r.status = .queued ∧
      (∀ e ∈ s.tests, e.run.status = .queued → r.timestamp ≤ e.run.timestamp) ∧
      (setStatus s .idle now pid).status = .running ∧
      getTest (setStatus s .idle now pid).tests r.id =
        some ⟨{ r with timestamp := now, status := .running }, some pid⟩) := by
  constructor
  · intro h
    exact ⟨firstQueued_none h, setStatus_idle_of_none h⟩
  · intro r h
    have hs := firstQueued_spec h
    exact ⟨hs.1, hs.2.1, hs.2.2, (@setStatus_idle_of_some s now pid r h).1,
      (@setStatus_idle_of_some s now pid r h).2.1⟩

/-- Witness for C3: in `sB` the queued "b" is the earliest queued run, and
writing `idle` starts it. -/
theorem C3_witness :
    firstQueued sB.tests = some bQueued ∧
    (setStatus sB .idle 9 8).status = .running ∧
    getTest (setStatus sB .idle 9 8).tests "b" =
      some ⟨{ bQueued with timestamp := 9, status := .running }, some 8⟩ := by
  refine ⟨by rfl, ?_, ?_⟩
  · exact ((C3_idle_transition sB 9 8).2 bQueued rfl).2.2.2.1
  · exact ((C3_idle_transition sB 9 8).2 bQueued rfl).2.2.2.2

/-- C4 is false as stated: `cancelTest` on the known, queued (hence not
running) run "b" is not a no-op — it re-marks the run `cancelled`. -/
theorem C4_cancel_not_noop :
    Reachable sB ∧ testStatus sB "b" = some .queued ∧
    testStatus (cancelTest sB "b") "b" = some .cancelled :=
  ⟨reachable_sB, rfl, rfl⟩

/-- C4 (amended): `cancelTest(id)` with an id unknown to the registry leaves
the whole controller state unchanged (nothing is reported); with a known id
it is not a no-op even when the run is not running: the run is re-registered
as `cancelled` with its process handle cleared, and the controller is driven
to `paused` exactly when the entry still held a process handle, its status
staying unchanged otherwise. -/
theorem C4_cancel_semantics (s : ControllerState) (id : String) :
    (getTest s.tests id = none → cancelTest s id = s) ∧
    (∀ t, getTest s.tests id = some t →
      getTest (cancelTest s id).tests id = some ⟨{ t.run with status := .cancelled }, none⟩ ∧
      (cancelTest s id).status =
        (if t.process.isSome then ControllerStatus.paused else s.status)) := by
  constructor
  · intro h
    unfold cancelTest
    rw [h]
  · intro t h
    have hid := (getTest_mem h).2
    unfold cancelTest
    rw [h]
    constructor
    · show getTest (cancelTestInternal s t).1.tests id = _
      unfold cancelTestInternal
      dsimp only
      rw [← hid]
      exact getTest_upsertTest_self _ _
    · show (cancelTestInternal s t).1.status = _
      unfold cancelTestInternal
      dsimp only
      by_cases hc : t.process.isSome = true
      · rw [if_pos hc, if_pos hc]
        rfl
      · rw [if_neg hc, if_neg hc]

/-- Witness for C4 (amended): the unknown "z" leaves `sB` unchanged; the
known queued "b" is re-marked cancelled with the controller status kept. -/
theorem C4_cancel_semantics_witness :
    getTest sB.tests "z" = none ∧ cancelTest sB "z" = sB ∧
    getTest (cancelTest sB "b").tests "b" =
      some ⟨{ bQueued with status := .cancelled }, none⟩ ∧
    (cancelTest sB "b").status = sB.status := by
  refine ⟨rfl, (C4_cancel_semantics sB "z").1 rfl, ?_, ?_⟩
  · exact ((C4_cancel_semantics sB "b").2 ⟨bQueued, none⟩ rfl).1
  · exact ((C4_cancel_semantics sB "b").2 ⟨bQueued, none⟩ rfl).2

/-- C5 is wrong about `confirm=true`: deleting the known, queued run "b"
through `DELETE /test/:id?confirm=true` answers `deleted` and removes the
registry entry, yet the run's working directory under the temp root is left
on disk, because `deleteTest` guards the temp-directory removal with
`testDataExists` instead of `runDataExists` (`controller.ts` line 333) and
"b", never archived, has no directory under the permanent root. -/
theorem C5_confirmed_delete_leaves_temp_dir :
    Reachable sB ∧ testStatus sB "b" = some .queued ∧ "b" ∈ sB.fs.tempDirs ∧
    ¬ "b" ∈ sB.fs.testDirs ∧
    (deleteTestRoute sB "b" true).2 = .deletedResp ∧
    testExists (deleteTestRoute sB "b" true).1 "b" = false ∧
    "b" ∈ (deleteTestRoute sB "b" true).1.fs.tempDirs := by
  exact ⟨reachable_sB, rfl, by decide, by decide, by decide, by decide, by decide⟩

/-- C6 is false as stated: when run "a" exits on its own (code 0, no signal)
and its re-read specification parses to an object without the expected plan
structure, the extraction throws; the run still becomes `done` with its exit
code and a warning is logged, but no duration is recorded at all — neither
on the run (`duration` stays undefined) nor on the metric (no sample with
the fixed dimensions is observed). -/
theorem C6_throwing_extraction_records_nothing :
    extractLabels badParsed = .error () ∧
    Reachable sE ∧ testStatus sE "a" = some .done ∧
    (getTest sE.tests "a").map (fun t => t.run.code) = some (some 0) ∧
    (getTest sE.tests "a").map (fun t => t.run.duration) = some none ∧
    sA.metrics = [] ∧ sE.metrics = [] :=
  ⟨rfl, reachable_sE, rfl, rfl, rfl, rfl, rfl⟩

/-- C6 (amended): a process exit without signal never fails the run.  When
the label extraction throws (malformed specification), the run is still
transitioned to `done` with its exit code, a warning is logged, the duration
is left undefined and no sample is recorded on the duration metric.  Only
when the labelled-arguments section is missing or ill-shaped without
throwing is the duration recorded, with exactly the fixed `category` and
`name` dimensions. -/
theorem C6_extraction_degrades (s : ControllerState) (p : PendingClose) (code : Int)
    (parsed : Except Unit JsVal) (dur : ℚ) (now pid2 : Nat) (hnd : NodupIds s.tests) :
    (extractLabels parsed = .error () →
      getTest (onClose s p code none parsed dur now pid2).tests p.run.id =
        some ⟨{ p.run with status := .done, code := some code, duration := none }, some p.pid⟩ ∧
      (onClose s p code none parsed dur now pid2).metrics = s.metrics) ∧
    (extractLabels parsed = .ok none →
      getTest (onClose s p code none parsed dur now pid2).tests p.run.id =
        some ⟨{ p.run with status := .done, code := some code, duration := some dur },
          some p.pid⟩ ∧
      (onClose s p code none parsed dur now pid2).metrics =
        s.metrics ++ [⟨[("category", p.run.category), ("name", some p.run.name)], dur⟩]) := by
  constructor
  · intro hE
    unfold onClose
    rw [hE]
    dsimp only
    by_cases hdir : p.run.id ∈ s.fs.tempDirs
    · rw [if_pos hdir]
      refine setStatus_preserves_entry (nodupIds_upsertTest hnd _) ?_ ?_ _ now pid2
      · exact getTest_upsertTest_self _ _
      · intro hq
        exact nomatch hq
    · rw [if_neg hdir]
      exact ⟨getTest_upsertTest_self _ _, rfl⟩
  · intro hE
    unfold onClose
    rw [hE]
    dsimp only
    by_cases hdir : p.run.id ∈ s.fs.tempDirs
    · rw [if_pos hdir]
      refine setStatus_preserves_entry (nodupIds_upsertTest hnd _) ?_ ?_ _ now pid2
      · exact getTest_upsertTest_self _ _
      · intro hq
        exact nomatch hq
    · rw [if_neg hdir]
      exact ⟨getTest_upsertTest_self _ _, rfl⟩

/-- Witness for C6 (amended): the throwing parse records no sample on `sA`;
the parse with a plan but no labelled-arguments section records one sample
with only the fixed dimensions and sets the duration. -/
theorem C6_extraction_degrades_witness :
    NodupIds sA.tests ∧ extractLabels badParsed = .error () ∧
    (onClose sA ⟨1, capA⟩ 0 none badParsed 1 9 9).metrics = sA.metrics ∧
    extractLabels noLabelsParsed = .ok none ∧
    (onClose sA ⟨1, capA⟩ 0 none noLabelsParsed 1 9 9).metrics =
      sA.metrics ++ [⟨[("category", none), ("name", some "T")], 1⟩] ∧
    (getTest (onClose sA ⟨1, capA⟩ 0 none noLabelsParsed 1 9 9).tests "a").map
      (fun t => t.run.duration) = some (some 1) := by
  refine ⟨by decide, rfl, ?_, rfl, ?_, ?_⟩
  · exact ((C6_extraction_degrades sA ⟨1, capA⟩ 0 badParsed 1 9 9 (by decide)).1 rfl).2
  · exact ((C6_extraction_degrades sA ⟨1, capA⟩ 0 noLabelsParsed 1 9 9 (by decide)).2 rfl).2
  · have h : getTest (onClose sA ⟨1, capA⟩ 0 none noLabelsParsed 1 9 9).tests "a" =
        some ⟨{ capA with status := .done, code := some 0, duration := some 1 }, some 1⟩ :=
      ((C6_extraction_degrades sA ⟨1, capA⟩ 0 noLabelsParsed 1 9 9 (by decide)).2 rfl).1
    rw [h]
    rfl

/-- C7: for an existing run with an existing captured log, `tailOutput`
(`getTestRunStatus`, up to the externally rendered template) returns with
limit 0 an output byte-identical to the whole log file, with a positive
limit `n` exactly the last `n` lines (the entire log when it has no more
lines than `n`), and defaults to limit 1000 when the limit is omitted; an
unknown run id or a missing log file fails with the respective not-found
error. -/
theorem C7_tail_output (s : ControllerState) (id : String) (refresh : Nat) (content : String)
    (t : Test) (ht : getTest s.tests id = some t)
    (hlog : readTextFile s.fs ⟨tempRoot, id, outputName⟩ = some content) :
    (getTestRunStatus s id refresh 0).map StatusData.output = .ok content ∧
    (∀ n : Nat, ¬ n = 0 → (getTestRunStatus s id refresh n).map StatusData.output =
      .ok (lastNLines n content)) ∧
    (∀ n : Nat, (content.splitOn "\n").length ≤ n → lastNLines n content = content) ∧
    getTestRunStatus s id refresh = getTestRunStatus s id refresh 1000 ∧
    (∀ j, getTest s.tests j = none → getTestRunStatus s j refresh = .error .testNotFound) ∧
    (∀ j t2, getTest s.tests j = some t2 →
      readTextFile s.fs ⟨tempRoot, j, outputName⟩ = none →
      getTestRunStatus s j refresh = .error .logNotFound) := by
  refine ⟨?_, ?_, ?_, rfl, ?_, ?_⟩
  · unfold getTestRunStatus
    rw [ht, hlog]
    simp [Except.map]
  · intro n hn
    unfold getTestRunStatus
    rw [ht, hlog]
    simp [Except.map, hn]
  · intro n hle
    unfold lastNLines
    dsimp only
    rw [if_pos hle]
  · intro j hj
    unfold getTestRunStatus
    rw [hj]
  · intro j t2 hj hl
    unfold getTestRunStatus
    rw [hj, hl]

/-- Witness for C7 on a three-line log. -/
theorem C7_tail_output_witness :
    getTest sLog.tests "a" = some ⟨capA, some 1⟩ ∧
    (getTestRunStatus sLog "a" 30 0).map StatusData.output = .ok "l1\nl2\nl3" ∧
    (getTestRunStatus sLog "a" 30 2).map StatusData.output = .ok (lastNLines 2 "l1\nl2\nl3") ∧
    getTestRunStatus sLog "z" 30 = .error .testNotFound := by
  have hc := C7_tail_output sLog "a" 30 "l1\nl2\nl3" ⟨capA, some 1⟩ rfl rfl
  exact ⟨rfl, hc.1, hc.2.1 2 (by decide), hc.2.2.2.2.1 "z" rfl⟩

/-- C8 is false as stated: the metadata of the `running` run `mdRun`, written
to its metadata file, archived and read back by `_importTest`, comes back
with status `cancelled` — `_importTest` rewrites a persisted `running`
status — so the round trip is not the identity on all fields. -/
theorem C8_running_not_roundtripped :
    mdRun.status = .running ∧
    getTest (metadataRoundTrip mdState mdRun).tests "m" =
      some ⟨{ mdRun with status := .cancelled }, none⟩ := by
  refine ⟨rfl, ?_⟩
  unfold metadataRoundTrip importTest
  have hw : (writeMetadata mdState.fs mdRun).files =
      fileWrite mdState.fs.files ⟨tempRoot, mdRun.id, metadataName⟩
        (FileContent.json (encodeRun mdRun)) := by
    unfold writeMetadata
    rw [if_pos (by decide)]
  have hget : getFile (moveToResults (writeMetadata mdState.fs mdRun) mdRun.id).files
      ⟨testRoot, mdRun.id, metadataName⟩ = some (FileContent.json (encodeRun mdRun)) := by
    apply getFile_moveToResults
    · show mdRun.id ∈ (writeMetadata mdState.fs mdRun).tempDirs
      unfold writeMetadata
      rw [if_pos (by decide)]
      decide
    · rw [hw]
      exact getFile_fileWrite_self _ _ _
  dsimp only
  rw [hget]
  dsimp only
  rw [decodeRun_encodeRun]
  dsimp only
  rw [if_pos (show mdRun.status = TestRunStatus.running from rfl)]
  exact getTest_upsertTest_self _ _

/-- C8 (amended): writing a Run's metadata and reading the metadata file
back yields a Run equal in all fields (id, name, category, timestamp,
status, code, duration) whenever the written status is not `running`; a
`running` Run is read back as `cancelled`. -/
theorem C8_metadata_roundtrip (s : ControllerState) (run : TestRun)
    (hdir : run.id ∈ s.fs.tempDirs) (hst : ¬ run.status = .running) :
    getTest (metadataRoundTrip s run).tests run.id = some ⟨run, none⟩ := by
  unfold metadataRoundTrip importTest
  have hw : (writeMetadata s.fs run).files =
      fileWrite s.fs.files ⟨tempRoot, run.id, metadataName⟩
        (FileContent.json (encodeRun run)) := by
    unfold writeMetadata
    rw [if_pos hdir]
  have hget : getFile (moveToResults (writeMetadata s.fs run) run.id).files
      ⟨testRoot, run.id, metadataName⟩ = some (FileContent.json (encodeRun run)) := by
    apply getFile_moveToResults
    · show run.id ∈ (writeMetadata s.fs run).tempDirs
      unfold writeMetadata
      rw [if_pos hdir]
      exact hdir
    · rw [hw]
      exact getFile_fileWrite_self _ _ _
  dsimp only
  rw [hget]
  dsimp only
  rw [decodeRun_encodeRun]
  dsimp only
  rw [if_neg hst]
  exact getTest_upsertTest_self _ _

/-- Witness for C8 (amended): the completed variant of `mdRun` round trips to
exactly the written Run. -/
theorem C8_metadata_roundtrip_witness :
    ¬ mdRunDone.status = .running ∧ "m" ∈ mdState.fs.tempDirs ∧
    getTest (metadataRoundTrip mdState mdRunDone).tests "m" = some ⟨mdRunDone, none⟩ := by
  refine ⟨by decide, by decide, ?_⟩
  exact C8_metadata_roundtrip mdState mdRunDone (by decide) (by decide)

/-- C9: `resume()` writes `idle` through the status setter regardless of the
current controller status — including when it is `running` — thereby
attempting to dequeue and start the queued run with the earliest parsed
timestamp, and returns the resulting status. -/
theorem C9_resume_unconditional (s : ControllerState) (now pid : Nat) :
    (resume s now pid).1 = setStatus s .idle now pid ∧
    (resume s now pid).2 = (resume s now pid).1.status ∧
    (firstQueued s.tests = none → (resume s now pid).1 = { s with status := .idle }) ∧
    (∀ r, firstQueued s.tests = some r →
      (resume s now pid).1.status = .running ∧
      getTest (resume s now pid).1.tests r.id =
        some ⟨{ r with timestamp := now, status := .running }, some pid⟩) := by
  refine ⟨rfl, rfl, fun h => setStatus_idle_of_none h, fun r h => ?_⟩
  exact ⟨(@setStatus_idle_of_some s now pid r h).1, (@setStatus_idle_of_some s now pid r h).2.1⟩

/-- Witness for C9: `resume()` from the `running` state `sB` (one run
active, "b" queued) still dequeues and starts "b". -/
theorem C9_resume_unconditional_witness :
    sB.status = .running ∧ firstQueued sB.tests = some bQueued ∧
    (resume sB 2 3).1.status = .running ∧
    getTest (resume sB 2 3).1.tests "b" =
      some ⟨{ bQueued with timestamp := 2, status := .running }, some 3⟩ := by
  refine ⟨rfl, rfl, ?_, ?_⟩
  · exact ((C9_resume_unconditional sB 2 3).2.2.2 bQueued rfl).1
  · exact ((C9_resume_unconditional sB 2 3).2.2.2 bQueued rfl).2

/-- C10: `_cancelTest` on a registry entry whose process handle is absent
sets the run's status to `cancelled`, clears its handle and leaves the
controller status unchanged; the controller is driven to `paused` exactly
when the cancelled entry held a process handle. -/
theorem C10_cancel_without_handle (s : ControllerState) (t : Test) (hmem : t ∈ s.tests) :
    (cancelTestInternal s t).1.status =
      (if t.process.isSome then ControllerStatus.paused else s.status) ∧
    (t.process = none →
      (cancelTestInternal s t).1.status = s.status ∧
      getTest (cancelTestInternal s t).1.tests t.run.id =
        some ⟨{ t.run with status := .cancelled }, none⟩) := by
  constructor
  · unfold cancelTestInternal
    dsimp only
    by_cases hc : t.process.isSome = true
    · rw [if_pos hc, if_pos hc]
      rfl
    · rw [if_neg hc, if_neg hc]
  · intro hp
    have hc : ¬ t.process.isSome = true := by rw [hp]; simp
    constructor
    · unfold cancelTestInternal
      dsimp only
      rw [if_neg hc]
    · unfold cancelTestInternal
      dsimp only
      exact getTest_upsertTest_self _ _

/-- Witness for C10: cancelling the handle-free `wTest` leaves the
controller `running` and re-marks the entry. -/
theorem C10_cancel_without_handle_witness :
    wTest ∈ wState.tests ∧ wTest.process = none ∧
    (cancelTestInternal wState wTest).1.status = .running ∧
    getTest (cancelTestInternal wState wTest).1.tests "w" =
      some ⟨{ wTest.run with status := .cancelled }, none⟩ := by
  refine ⟨by decide, rfl, ?_, ?_⟩
  · exact ((C10_cancel_without_handle wState wTest (by decide)).2 rfl).1
  · exact ((C10_cancel_without_handle wState wTest (by decide)).2 rfl).2

end JR
